import Mathlib

/-!
Verification development for the feishu-etl pipeline.

The Go source is shallowly embedded:

* Dynamic field values (`map[string]interface{}` entries) are modelled by
  `FieldValue`, covering the string and numeric JSON values the pipeline
  manipulates.  Numeric values (Go `float64`) are modelled exactly as
  rationals; every numeric constant appearing in the development is an
  integer, hence exactly representable in `float64`, so no floating-point
  rounding is lost on the inputs considered here.
* Go maps are modelled as association lists with overwrite-on-insert
  (`rowInsert`) and first-match lookup (`lookupField`); maps built from the
  empty map through `rowInsert` have unique keys, so the model is faithful.
* Calendar arithmetic (`time.Unix`/`Format`/`Parse` for the `2006-01-02`
  layout) is modelled by a standard proleptic-Gregorian conversion between
  epoch days and `(year, month, day)` triples, with the display timezone a
  fixed offset in seconds (the deployment zone is the fixed offset UTC+8,
  which Go falls back to when `Asia/Shanghai` is unavailable).
* Fallible Go functions returning `(T, error)` become `Except Unit T` or
  `Option T`; a panicking type assertion is modelled by `Option`.
-/

set_option allowUnsafeReducibility true

attribute [local semireducible] Rat.mul Rat.add Rat.sub Rat.neg Rat.div Rat.inv Rat.normalize Rat.floor

namespace FeishuEtl

/-- Decidable equality of `Except` results, used to evaluate the model on
concrete inputs. -/
instance {ε α : Type} [DecidableEq ε] [DecidableEq α] : DecidableEq (Except ε α) := fun x y =>
  match x, y with
  | .ok a, .ok b =>
      if h : a = b then isTrue (by rw [h]) else isFalse (by simp [h])
  | .error e, .error f =>
      if h : e = f then isTrue (by rw [h]) else isFalse (by simp [h])
  | .ok _, .error _ => isFalse (by simp)
  | .error _, .ok _ => isFalse (by simp)

/-- A dynamic field value (`interface{}`) as produced by the JSON decoding of
the Feishu API: either a string or a number.  Numbers are modelled as exact
rationals. -/
inductive FieldValue where
  | str (s : String)
  | num (q : Rat)
deriving DecidableEq, Repr

/-- A record of the Feishu bitable (`feishu.Record`): a record id and a field
map, the latter modelled as an association list with unique keys. -/
structure Record where
  recordID : String
  fields : List (String × FieldValue)
deriving DecidableEq, Repr

/-- A row map (`map[string]interface{}`), as built by `Transform` and consumed
by `Load`. -/
abbrev Row := List (String × FieldValue)

/-- Go map lookup `fields[key]`: first matching entry. -/
def lookupField (fields : Row) (key : String) : Option FieldValue :=
  match fields with
  | [] => none
  | (k, v) :: rest => if k = key then some v else lookupField rest key

/-- Go map insertion `m[key] = v`: overwrite the existing entry, else append. -/
def rowInsert (fields : Row) (key : String) (v : FieldValue) : Row :=
  match fields with
  | [] => [(key, v)]
  | (k, w) :: rest =>
      if k = key then (k, v) :: rest else (k, w) :: rowInsert rest key v

/-- `util.GetStringField`: returns the value when it is a string, otherwise
the empty string. -/
def GetStringField (fields : Row) (key : String) : String :=
  match lookupField fields key with
  | some (.str s) => s
  | _ => ""

/-! ### Calendar arithmetic

`daysFromCivil`/`civilFromDays` convert between proleptic-Gregorian civil
dates and days since the Unix epoch (1970-01-01), mirroring the calendar
semantics of Go's `time` package. -/

/-- Day-of-era of the first day of the shifted (March-based) year `yoe` of a
400-year Gregorian era. -/
def yoeStart (yoe : Nat) : Nat := yoe * 365 + yoe / 4 - yoe / 100

/-- The day-of-era correction sum used to recover the shifted year. -/
def hAux (x : Nat) : Nat := x - x / 1460 + x / 36524 - x / 146096

/-- Shifted-year-of-era recovery from a day-of-era. -/
def yoeRecover (doe : Nat) : Nat := hAux doe / 365

/-- Days since 1970-01-01 of the Gregorian date `(y, m, d)` (valid dates,
`1 ≤ m ≤ 12`).  The year is shifted by +400 internally so that all
intermediate arithmetic stays in `Nat`. -/
def daysFromCivil (y m d : Nat) : Int :=
  let yS : Nat := if m ≤ 2 then y + 399 else y + 400
  let mp : Nat := if m ≤ 2 then m + 9 else m - 3
  let doy : Nat := (153 * mp + 2) / 5 + d - 1
  ((yS / 400) * 146097 + (yoeStart (yS % 400) + doy) : Int) - 865565

/-- Gregorian date `(y, m, d)` of the day `n` counted from 1970-01-01. -/
def civilFromDays (n : Int) : Int × Nat × Nat :=
  let z : Int := n + 719468
  let era : Int := z.fdiv 146097
  let doe : Nat := (z - era * 146097).toNat
  let yoe : Nat := yoeRecover doe
  let doy : Nat := doe - yoeStart yoe
  let mp : Nat := (5 * doy + 2) / 153
  let d : Nat := doy - (153 * mp + 2) / 5 + 1
  let m : Nat := if mp < 10 then mp + 3 else mp - 9
  (era * 400 + yoe + (if m ≤ 2 then 1 else 0), m, d)

/-- The decimal digit character for `n % 10`. -/
def digitChar (n : Nat) : Char := Char.ofNat (48 + n % 10)

/-- Two-digit zero-padded decimal rendering (layout elements `01`, `02`). -/
def pad2 (n : Nat) : List Char := [digitChar (n / 10), digitChar n]

/-- Year rendering of Go's `Format` for layout `2006`: four digits
zero-padded, full decimal expansion beyond 9999. -/
def pad4Year (y : Int) : List Char :=
  if 0 ≤ y ∧ y < 10000 then
    [digitChar (y.toNat / 1000), digitChar (y.toNat / 100),
     digitChar (y.toNat / 10), digitChar y.toNat]
  else
    (toString y).toList

/-- `YYYY-MM-DD` string of the epoch day `n` (Go `Format("2006-01-02")`). -/
def dateStringOfDay (n : Int) : String :=
  match civilFromDays n with
  | (y, m, d) => String.mk (pad4Year y ++ '-' :: pad2 m ++ '-' :: pad2 d)

/-- `YYYY-MM-DD` rendering of the instant `sec` (epoch seconds) in the fixed
display zone `tz` (offset in seconds): Go `t.Format("2006-01-02")`. -/
def formatEpochDate (tz sec : Int) : String :=
  dateStringOfDay ((sec + tz).fdiv 86400)

/-- `util.convertTimestampToTime`: sanity-checks the raw value against
`[minValidTimestampSec, maxValidTimestampMs]`, then interprets it as
milliseconds when `≥ 10^12` and as seconds otherwise.  Returns the epoch
seconds of the denoted instant (`none` = the Go error). -/
def convertTimestampToTime (ts : Rat) : Option Int :=
  if ts < 946684800 ∨ ts > 2145916800000 then none
  else if 1000000000000 ≤ ts then some ((ts / 1000).floor)
  else some ts.floor

/-- `util.GetDateFieldAsString`: missing field ⇒ `ok ""`; string value
returned unchanged; numeric value converted through
`convertTimestampToTime` and formatted in the display zone `tz`. -/
def GetDateFieldAsString (tz : Int) (fields : Row) (key : String) :
    Except Unit String :=
  match lookupField fields key with
  | none => .ok ""
  | some (.str s) => .ok s
  | some (.num q) =>
      match convertTimestampToTime q with
      | none => .error ()
      | some sec => .ok (formatEpochDate tz sec)

/-- The numeric value of a decimal digit character. -/
def digitVal (c : Char) : Option Nat :=
  if 48 ≤ c.toNat ∧ c.toNat ≤ 57 then some (c.toNat - 48) else none

/-- Gregorian leap-year test. -/
def isLeapYear (y : Nat) : Bool :=
  y % 4 == 0 && (y % 100 != 0 || y % 400 == 0)

/-- Number of days of month `m` of year `y`. -/
def daysInMonth (y m : Nat) : Nat :=
  if m = 2 then (if isLeapYear y then 29 else 28)
  else if m = 4 ∨ m = 6 ∨ m = 9 ∨ m = 11 then 30
  else 31

/-- Validity of a `(y, m, d)` triple as checked by Go's `time.Parse`. -/
def validDate (y m d : Nat) : Bool :=
  1 ≤ m && m ≤ 12 && 1 ≤ d && d ≤ daysInMonth y m

/-- Go `time.Parse("2006-01-02", s)` on the character list of `s`: exactly
ten characters `dddd-dd-dd`, month and day range-checked. -/
def parseYMD (cs : List Char) : Option (Nat × Nat × Nat) :=
  match cs with
  | [c1, c2, c3, c4, h1, c5, c6, h2, c7, c8] =>
      if h1 = '-' ∧ h2 = '-' then
        match digitVal c1, digitVal c2, digitVal c3, digitVal c4,
              digitVal c5, digitVal c6, digitVal c7, digitVal c8 with
        | some a, some b, some c, some d, some e, some f, some g, some h =>
            let y := ((a * 10 + b) * 10 + c) * 10 + d
            let m := e * 10 + f
            let dd := g * 10 + h
            if validDate y m dd then some (y, m, dd) else none
        | _, _, _, _, _, _, _, _ => none
      else none
  | _ => none

/-- `util.ParseDateToTimestampMs`: parses a `YYYY-MM-DD` string in the fixed
UTC+8 zone and returns the epoch milliseconds of local midnight. -/
def ParseDateToTimestampMs (s : String) : Except Unit Int :=
  if s = "" then .error ()
  else
    match parseYMD s.toList with
    | none => .error ()
    | some (y, m, d) => .ok ((daysFromCivil y m d * 86400 - 28800) * 1000)

/-- `util.FilterRecordsByDate`: records whose date field fails to resolve, is
empty, or does not parse as `YYYY-MM-DD` are skipped; a surviving record is
kept when the midnight-UTC instant of the parsed date lies in
`[startSec, endSec)` (the endpoints are instants in epoch seconds). -/
def FilterRecordsByDate (tz : Int) (records : List Record) (dateField : String)
    (startSec endSec : Int) : List Record :=
  match records with
  | [] => []
  | r :: rest =>
      let tail := FilterRecordsByDate tz rest dateField startSec endSec
      match GetDateFieldAsString tz r.fields dateField with
      | .error _ => tail
      | .ok s =>
          if s = "" then tail
          else
            match parseYMD s.toList with
            | none => tail
            | some (y, m, d) =>
                let t := daysFromCivil y m d * 86400
                if startSec ≤ t ∧ t < endSec then r :: tail else tail

/-! ### Transform -/

/-- Rendering of a dynamic value by Go's `fmt.Sprintf("%v", v)`, for the
values of this model (exact for strings and integral numbers, the only
values it is applied to in this development). -/
def goShow (v : FieldValue) : String :=
  match v with
  | .str s => s
  | .num q => if q.den = 1 then toString q.num else toString q

/-- Whether the list `l` starts with the list `p`. -/
def startsWithL (l p : List Char) : Bool :=
  match l, p with
  | _, [] => true
  | [], _ :: _ => false
  | c :: cs, d :: ds => c == d && startsWithL cs ds

/-- Whether `sub` occurs as a contiguous sublist of `l`. -/
def containsSubL (l sub : List Char) : Bool :=
  match l with
  | [] => sub.isEmpty
  | c :: cs => startsWithL (c :: cs) sub || containsSubL cs sub

/-- `etl.containsIgnoreCase`: ASCII-lowercased substring containment
(`strings.Contains(strings.ToLower(s), strings.ToLower(substr))`). -/
def containsIgnoreCase (s substr : String) : Bool :=
  containsSubL (s.toList.map Char.toLower) (substr.toList.map Char.toLower)

/-- `etl.shouldSkipRecord`: a record is skipped when its `检查` field exists
and its text contains the `空数据` or `重复填写` sentinel. -/
def shouldSkipRecord (fields : Row) : Bool :=
  match lookupField fields "检查" with
  | none => false
  | some v =>
      let check := goShow v
      (check ≠ "" && containsIgnoreCase check "空数据") ||
      (check ≠ "" && containsIgnoreCase check "重复填写")

/-- The exact rational denoted by a decimal literal
`sign digits [. digits] [e sign digits]`, the fragment of Go's
`strconv.ParseFloat` grammar exercised by the pipeline (hexadecimal,
non-finite and underscore-separated literals are not modelled; `float64`
rounding is not modelled — all literals of interest denote exactly
representable values). -/
def parseGoFloat (s : String) : Option Rat :=
  let afterSign : List Char → Rat × List Char := fun cs =>
    match cs with
    | '+' :: rest => (1, rest)
    | '-' :: rest => (-1, rest)
    | rest => (1, rest)
  let takeDigits : List Char → List Nat × List Char := fun cs =>
    let rec go : List Char → List Nat × List Char
      | [] => ([], [])
      | c :: rest =>
          match digitVal c with
          | some d => let (ds, rem) := go rest; (d :: ds, rem)
          | none => ([], c :: rest)
    go cs
  let natOf : List Nat → Nat := fun ds => ds.foldl (fun acc d => acc * 10 + d) 0
  let (sign, cs1) := afterSign s.toList
  let (intDs, cs2) := takeDigits cs1
  let (fracDs, cs3) :=
    match cs2 with
    | '.' :: rest => takeDigits rest
    | _ => ([], cs2)
  if intDs.isEmpty ∧ fracDs.isEmpty then none
  else
    let mantissa : Rat :=
      sign * ((natOf intDs : Rat) + (natOf fracDs : Rat) / (10 : Rat) ^ fracDs.length)
    match cs3 with
    | [] => some mantissa
    | e :: rest =>
        if e = 'e' ∨ e = 'E' then
          let (esign, rest1) : Bool × List Char :=
            match rest with
            | '+' :: r => (true, r)
            | '-' :: r => (false, r)
            | r => (true, r)
          let (expDs, rest2) := takeDigits rest1
          if expDs.isEmpty ∨ ¬ rest2.isEmpty then none
          else
            some (if esign then mantissa * (10 : Rat) ^ natOf expDs
                  else mantissa / (10 : Rat) ^ natOf expDs)
        else none

/-- The base-field map built by `Transform` for one record (insertion order
follows the Go map literal). -/
def baseRow (dateField : String) (fields : Row) (dateStr : String) : Row :=
  rowInsert (rowInsert (rowInsert (rowInsert (rowInsert (rowInsert []
    "工作状态" (.str (GetStringField fields "工作状态")))
    dateField (.str dateStr))
    "部门" (.str (GetStringField fields "部门")))
    "姓名" (.str (GetStringField fields "姓名")))
    "工作日志" (.str (GetStringField fields "工作日志")))
    "问题与沟通" (.str (GetStringField fields "问题与沟通"))

/-- The three `(项目名称-i, 项目工时-i)` slots of a record. -/
def projectSlots (fields : Row) : List (String × String) :=
  [(GetStringField fields "项目名称-1", GetStringField fields "项目工时-1"),
   (GetStringField fields "项目名称-2", GetStringField fields "项目工时-2"),
   (GetStringField fields "项目名称-3", GetStringField fields "项目工时-3")]

/-- Evaluation of one project slot: empty or `"None"` sides, unparsable hour
text and zero hours drop the slot; otherwise one row is produced from the
base fields plus the slot's project name and hours. -/
def slotRow (base : Row) (slot : String × String) : Option Row :=
  if slot.1 = "" ∨ slot.2 = "" ∨ slot.1 = "None" ∨ slot.2 = "None" then none
  else
    match parseGoFloat slot.2 with
    | none => none
    | some q =>
        if q = 0 then none
        else some (rowInsert (rowInsert base "项目名称" (.str slot.1)) "工时" (.num q))

/-- The rows produced by `Transform` for one record. -/
def transformRecord (tz : Int) (dateField : String) (r : Record) : List Row :=
  if shouldSkipRecord r.fields then []
  else
    match GetDateFieldAsString tz r.fields dateField with
    | .error _ => []
    | .ok dateStr =>
        if dateStr = "" then []
        else (projectSlots r.fields).filterMap (slotRow (baseRow dateField r.fields dateStr))

/-- `etl.Transform`: per-record fan-out in source order, slot order 1,2,3. -/
def Transform (tz : Int) (dateField : String) (records : List Record) : List Row :=
  (records.map (transformRecord tz dateField)).flatten

/-! ### Load -/

/-- The Go type assertion `v.(string)`: `none` models the panic. -/
def assertString (v : Option FieldValue) : Option String :=
  match v with
  | some (.str s) => some s
  | _ => none

/-- The composite dedup key `date|name|project` built by `Load` from a row
via unchecked type assertions; `none` models the panic on a non-string
value. -/
def dedupKeyOfRow (dateField : String) (row : Row) : Option String :=
  match assertString (lookupField row dateField),
        assertString (lookupField row "姓名"),
        assertString (lookupField row "项目名称") with
  | some d, some n, some p => some (d ++ "|" ++ n ++ "|" ++ p)
  | _, _, _ => none

/-- The dedup selection loop of `Load` (the spec's `selectNew`): keeps the
rows whose key is absent from `existingKeys`; `none` models a panic on a row
without the three string fields. -/
def selectNew (dateField : String) (existingKeys : List String) :
    List Row → Option (List Row)
  | [] => some []
  | row :: rest => do
      let key ← dedupKeyOfRow dateField row
      let tail ← selectNew dateField existingKeys rest
      pure (if existingKeys.contains key then tail else row :: tail)

/-- `etl.prepareRecordForWriting`: converts the date field of a row from its
canonical string to epoch milliseconds; fails when the date value is not a
string or does not parse. -/
def prepareRecordForWriting (dateField : String) (row : Row) : Option Row :=
  row.mapM fun kv =>
    if kv.1 = dateField then
      match kv.2 with
      | .str s =>
          match ParseDateToTimestampMs s with
          | .ok ms => some (kv.1, .num (ms : Rat))
          | .error _ => none
      | _ => none
    else some kv

/-- The contiguous chunks `rows[i : i+batchSize]` visited by the write loop
of `Load` (fuel-driven; for `batchSize = 0` the Go loop does not terminate,
so the model is meaningful for `1 ≤ batchSize` only). -/
def chunksAux (batchSize : Nat) : Nat → List Row → List (List Row)
  | 0, _ => []
  | _, [] => []
  | fuel + 1, l => l.take batchSize :: chunksAux batchSize fuel (l.drop batchSize)

/-- The batch partition of the rows to write. -/
def chunks (l : List Row) (batchSize : Nat) : List (List Row) :=
  chunksAux batchSize l.length l

/-- Observable outcome of the write loop: the prepared batches submitted to
`BatchCreateRecords` in order, the number of rows acknowledged as written
(successful calls only), and whether the loop aborted with an error. -/
structure WriteTrace where
  calls : List (List Row)
  written : Nat
  failed : Bool
deriving DecidableEq, Repr

/-- The batch-submission loop: empty prepared batches are skipped without a
call; a failed call (`oracle` false at the next call index) aborts
immediately; a successful call adds the batch size to the written count. -/
def runBatches (oracle : Nat → Bool) : List (List Row) → Nat → WriteTrace
  | [], _ => ⟨[], 0, false⟩
  | b :: rest, idx =>
      if b.isEmpty then runBatches oracle rest idx
      else if oracle idx then
        let t := runBatches oracle rest (idx + 1)
        ⟨b :: t.calls, b.length + t.written, t.failed⟩
      else ⟨[b], 0, true⟩

/-- The write stage of `Load` (lines 56–98): chunk, prepare each chunk
(dropping rows that fail preparation), submit non-empty prepared batches. -/
def writeStage (dateField : String) (oracle : Nat → Bool) (rows : List Row)
    (batchSize : Nat) : WriteTrace :=
  if rows.isEmpty then ⟨[], 0, false⟩
  else
    runBatches oracle
      ((chunks rows batchSize).map (·.filterMap (prepareRecordForWriting dateField))) 0

/-- Observable outcome of `Load` after the dedup keys are known: batch calls
issued, dry-run preview rows logged, rows written, error flag. -/
structure LoadRun where
  calls : List (List Row)
  previews : Nat
  written : Nat
  failed : Bool
deriving DecidableEq, Repr

/-- `etl.Load` after `getTargetKeys`: dedup filter, then either the dry-run
preview (no calls, up to 3 previews) or the write stage.  `none` models a
panic of the key-building type assertions. -/
def Load (dateField : String) (existingKeys : List String) (dryRun : Bool)
    (batchSize : Nat) (oracle : Nat → Bool) (rows : List Row) : Option LoadRun :=
  (selectNew dateField existingKeys rows).map fun dataToWrite =>
    if dryRun then ⟨[], min 3 dataToWrite.length, 0, false⟩
    else
      let t := writeStage dateField oracle dataToWrite batchSize
      ⟨t.calls, 0, t.written, t.failed⟩

/-! ### ResilientTransport -/

/-- Transport-level outcome of one attempt: an error (no response), or a
response carrying an HTTP status code. -/
inductive Attempt where
  | err
  | resp (status : Nat)
deriving DecidableEq, Repr

/-- The error returned by `sendWithRetry` after exhaustion. -/
inductive RetryErr where
  | transport
  | status (code : Nat)
  | noAttempt
deriving DecidableEq, Repr

/-- Result of `sendWithRetry`: `ok k` returns attempt `k`'s OK response,
`fail e` is the error returned after exhaustion. -/
inductive RetryResult where
  | ok (attempt : Nat)
  | fail (e : RetryErr)
deriving DecidableEq, Repr

/-- Observable trace of `sendWithRetry`: attempts made, backoff sleeps (in
units of the initial second), indices of attempts whose response body was
closed, and the result (`ok k` returns attempt `k`'s OK response). -/
structure RetryTrace where
  attempts : Nat
  sleeps : List Nat
  closed : List Nat
  result : RetryResult
deriving DecidableEq, Repr

/-- Whether a failed attempt carried a response (whose body is closed). -/
def failedResp (a : Attempt) : Bool :=
  match a with
  | .err => false
  | .resp s => s ≠ 200

/-- The exhaustion error of `sendWithRetry`: the last transport error, or the
last non-OK status code. -/
def lastErr (a : Attempt) : RetryErr :=
  match a with
  | .err => .transport
  | .resp s => .status s

/-- The loop of `feishu.sendWithRetry`, with `remaining` iterations left,
current attempt index `i` and current backoff. -/
def sendWithRetryAux (outcome : Nat → Attempt) : Nat → Nat → Nat → RetryTrace
  | 0, _, _ => ⟨0, [], [], .fail .noAttempt⟩
  | remaining + 1, i, backoff =>
      if outcome i = .resp 200 then ⟨1, [], [], .ok i⟩
      else
        let closedHere : List Nat := if failedResp (outcome i) then [i] else []
        if remaining = 0 then
          ⟨1, [], closedHere, .fail (lastErr (outcome i))⟩
        else
          let t := sendWithRetryAux outcome remaining (i + 1) (backoff * 2)
          ⟨t.attempts + 1, backoff :: t.sleeps, closedHere ++ t.closed, t.result⟩

/-- `feishu.sendWithRetry` with `maxRetries` attempts. -/
def sendWithRetry (outcome : Nat → Attempt) (maxRetries : Nat) : RetryTrace :=
  sendWithRetryAux outcome maxRetries 0 1

/-! ### PagedFetcher -/

/-- `etl.extractTextFromField` restricted to the modelled values: a string is
returned unchanged, anything else falls back to `fmt.Sprintf("%v", ·)`. -/
def extractTextFromField (v : FieldValue) : String :=
  match v with
  | .str s => s
  | _ => goShow v

/-- `feishu.preprocessRecordFields`: the `检查` field is replaced by its
extracted text. -/
def preprocessRecord (r : Record) : Record :=
  ⟨r.recordID,
   r.fields.map fun kv =>
     if kv.1 = "检查" then (kv.1, .str (extractTextFromField kv.2)) else kv⟩

/-- The server's answer to one page request: transport failure after retry
exhaustion, an undecodable body, or a decoded page `(code, items, token)`. -/
inductive PageResp where
  | fail
  | undecodable
  | page (code : Int) (items : List Record) (tok : String)
deriving DecidableEq, Repr

/-- `feishu.ListRecords` driven by the script of successive server answers:
accumulates preprocessed items until a page carries an empty continuation
token; any failure, undecodable body or non-zero code aborts.  An exhausted
script (the Go loop would issue another request) also yields an error; the
theorems below only apply the model to scripts that terminate the loop. -/
def ListRecords : List PageResp → Except Unit (List Record)
  | [] => .error ()
  | .fail :: _ => .error ()
  | .undecodable :: _ => .error ()
  | .page code items tok :: rest =>
      if code ≠ 0 then .error ()
      else
        let items' := items.map preprocessRecord
        if tok = "" then .ok items'
        else
          match ListRecords rest with
          | .error e => .error e
          | .ok more => .ok (items' ++ more)

/-! ### Correctness of the calendar conversions -/
theorem hAux_mono : ∀ {a b : Nat}, a ≤ b → hAux a ≤ hAux b := by
  intro a b h
  induction b with
  | zero => simp_all
  | succ n ih =>
      rcases Nat.lt_or_ge a (n + 1) with h' | h'
      · exact le_trans (ih (by omega)) (by unfold hAux; omega)
      · have : a = n + 1 := by omega
        simp [this]

/-- Length minus one of the shifted year `yoe` (365 when it contains a leap
day, else 364). -/
def maxdoy (yoe : Nat) : Nat :=
  if (yoe + 1) % 4 = 0 ∧ ((yoe + 1) % 100 ≠ 0 ∨ (yoe + 1) % 400 = 0) then 365 else 364

def endpointCheck : Bool :=
  (List.range 400).all fun yoe =>
    yoeRecover (yoeStart yoe) == yoe && yoeRecover (yoeStart yoe + maxdoy yoe) == yoe

set_option maxRecDepth 40000 in
theorem endpointCheck_true : endpointCheck = true := by decide

theorem all_range {n : Nat} {f : Nat → Bool} (h : (List.range n).all f = true) :
    ∀ i, i < n → f i = true := by
  intro i hi
  exact List.all_eq_true.mp h i (List.mem_range.mpr hi)

theorem yoeRecover_eq (yoe doy : Nat) (h1 : yoe ≤ 399) (h2 : doy ≤ maxdoy yoe) :
    yoeRecover (yoeStart yoe + doy) = yoe := by
  have he := all_range endpointCheck_true yoe (by omega)
  simp only [Bool.and_eq_true, beq_iff_eq] at he
  have hlo : yoeRecover (yoeStart yoe) ≤ yoeRecover (yoeStart yoe + doy) :=
    Nat.div_le_div_right (hAux_mono (by omega))
  have hhi : yoeRecover (yoeStart yoe + doy) ≤ yoeRecover (yoeStart yoe + maxdoy yoe) :=
    Nat.div_le_div_right (hAux_mono (by omega))
  omega

def monthCheck : Bool :=
  (List.range 12).all fun m1 =>
    (List.range 31).all fun d1 =>
      let m := m1 + 1
      let d := d1 + 1
      let ub := if m = 2 then 29 else if m = 4 ∨ m = 6 ∨ m = 9 ∨ m = 11 then 30 else 31
      let mp := if m ≤ 2 then m + 9 else m - 3
      let doy := (153 * mp + 2) / 5 + d - 1
      !(d ≤ ub) ||
        (((5 * doy + 2) / 153 == mp) && (doy - (153 * mp + 2) / 5 + 1 == d) &&
         ((if mp < 10 then mp + 3 else mp - 9) == m) && (doy ≤ 365) &&
         (!(doy == 365) || (m == 2 && d == 29)))

set_option maxRecDepth 40000 in
theorem monthCheck_true : monthCheck = true := by decide

theorem validDate_elim {y m d : Nat} (h : validDate y m d = true) :
    1 ≤ m ∧ m ≤ 12 ∧ 1 ≤ d ∧
    d ≤ (if m = 2 then 29 else if m = 4 ∨ m = 6 ∨ m = 9 ∨ m = 11 then 30 else 31) ∧
    (m = 2 → d = 29 → y % 4 = 0 ∧ (y % 100 ≠ 0 ∨ y % 400 = 0)) := by
  unfold validDate daysInMonth isLeapYear at h
  simp only [Bool.and_eq_true, decide_eq_true_eq] at h
  obtain ⟨⟨⟨hm1, hm12⟩, hd1⟩, hd2⟩ := h
  refine ⟨hm1, hm12, hd1, ?_, ?_⟩
  · by_cases h2 : m = 2
    · simp [h2] at hd2 ⊢
      split at hd2 <;> omega
    · simp [h2] at hd2 ⊢
      exact hd2
  · intro h2 h29
    subst h2
    subst h29
    simp at hd2
    split at hd2
    · next hl => omega
    · next hl => omega

theorem civilFromDays_daysFromCivil (y m d : Nat) (h : validDate y m d = true) :
    civilFromDays (daysFromCivil y m d) = ((y : Int), m, d) := by
  obtain ⟨hm1, hm12, hd1, hdub, hleap⟩ := validDate_elim h
  have hd31 : d ≤ 31 := by
    split at hdub
    · omega
    · split at hdub <;> omega
  have hmc := all_range (all_range monthCheck_true (m - 1) (by omega)) (d - 1) (by omega)
  simp only [Nat.sub_add_cancel hm1, Nat.sub_add_cancel hd1, Bool.or_eq_true,
    Bool.not_eq_true', Bool.and_eq_true, beq_iff_eq, decide_eq_true_eq,
    decide_eq_false_iff_not, Bool.not_eq_eq_eq_not, Bool.not_true] at hmc
  rcases hmc with hguard | ⟨⟨⟨⟨hr1, hr2⟩, hr3⟩, hr4⟩, hr5⟩
  · exact absurd hdub hguard
  set mp := if m ≤ 2 then m + 9 else m - 3 with hmpdef
  set doy := (153 * mp + 2) / 5 + d - 1 with hdoydef
  set yS := if m ≤ 2 then y + 399 else y + 400 with hySdef
  have hysmod : yS = 400 * (yS / 400) + yS % 400 := (Nat.div_add_mod yS 400).symm
  have hyoele : yS % 400 ≤ 399 := by omega
  have hmax : doy ≤ maxdoy (yS % 400) := by
    rcases Nat.lt_or_ge doy 365 with hlt | hge
    · unfold maxdoy
      split <;> omega
    · have h365 : doy = 365 := by omega
      rcases hr5 with h5 | ⟨h2, h29⟩
      · simp [h365] at h5
      have hl := hleap h2 h29
      have hm2 : m ≤ 2 := by omega
      have hys : yS = y + 399 := by rw [hySdef, if_pos hm2]
      unfold maxdoy
      rw [if_pos] <;> omega
  have hdoe_ub : yoeStart (yS % 400) + doy ≤ 146096 := by
    unfold yoeStart
    omega
  have hn : daysFromCivil y m d =
      (((yS / 400 : Nat) : Int) * 146097 + ((yoeStart (yS % 400) + doy : Nat) : Int)) - 865565 := by
    simp only [daysFromCivil]
    rw [← hmpdef, ← hdoydef, ← hySdef]
    push_cast
    ring
  rw [hn]
  simp only [civilFromDays]
  have hz : (((yS / 400 : Nat) : Int) * 146097 + ((yoeStart (yS % 400) + doy : Nat) : Int)) - 865565 + 719468
      = (((yS / 400 : Nat) : Int) - 1) * 146097 + ((yoeStart (yS % 400) + doy : Nat) : Int) := by
    push_cast
    ring
  rw [hz]
  have hera : ((((yS / 400 : Nat) : Int) - 1) * 146097 + ((yoeStart (yS % 400) + doy : Nat) : Int)).fdiv 146097
      = ((yS / 400 : Nat) : Int) - 1 := by
    rw [Int.fdiv_eq_ediv _ (by norm_num)]
    omega
  rw [hera]
  have hdoe : ((((yS / 400 : Nat) : Int) - 1) * 146097 + ((yoeStart (yS % 400) + doy : Nat) : Int)
        - (((yS / 400 : Nat) : Int) - 1) * 146097).toNat
      = yoeStart (yS % 400) + doy := by omega
  rw [hdoe]
  rw [yoeRecover_eq _ _ hyoele hmax]
  have hdoy2 : yoeStart (yS % 400) + doy - yoeStart (yS % 400) = doy := by omega
  rw [hdoy2, hr1, hr2, hr3]
  refine congrArg (fun t : Int => (t, m, d)) ?_
  by_cases hm2 : m ≤ 2
  · have hys : yS = y + 399 := by rw [hySdef, if_pos hm2]
    rw [if_pos hm2]
    omega
  · have hys : yS = y + 400 := by rw [hySdef, if_neg hm2]
    rw [if_neg hm2]
    omega

/-! ### Parsing and formatting round trip -/

theorem digitVal_inv {c : Char} {n : Nat} (h : digitVal c = some n) :
    n ≤ 9 ∧ digitChar n = c := by
  unfold digitVal at h
  split at h
  case isFalse => exact absurd h (by simp)
  case isTrue hr =>
      obtain rfl := Option.some.inj h
      refine ⟨by omega, ?_⟩
      unfold digitChar
      rw [Nat.mod_eq_of_lt (by omega), show 48 + (c.toNat - 48) = c.toNat by omega]
      exact Char.ofNat_toNat c

theorem digitChar_congr {a b : Nat} (h : a % 10 = b % 10) : digitChar a = digitChar b := by
  unfold digitChar
  rw [h]

theorem parseYMD_elim {cs : List Char} {y m d : Nat}
    (h : parseYMD cs = some (y, m, d)) :
    validDate y m d = true ∧ y < 10000 ∧
    cs = pad4Year (y : Int) ++ '-' :: pad2 m ++ '-' :: pad2 d := by
  rcases cs with _ | ⟨c1, _ | ⟨c2, _ | ⟨c3, _ | ⟨c4, _ | ⟨g1, _ | ⟨c5, _ | ⟨c6, _ | ⟨g2, _ | ⟨c7, _ | ⟨c8, _ | ⟨c9, rest⟩⟩⟩⟩⟩⟩⟩⟩⟩⟩⟩
  all_goals simp only [parseYMD] at h
  all_goals try exact Option.noConfusion h
  split at h
  case isTrue hdash =>
    obtain ⟨hg1, hg2⟩ := hdash
    subst hg1
    subst hg2
    split at h
    case _ a b c dd e f g hh ha hb hc hdd he hf hg hhh =>
      split at h
      case isFalse => exact absurd h (by simp)
      case isTrue hval =>
        obtain ⟨ha9, hac⟩ := digitVal_inv ha
        obtain ⟨hb9, hbc⟩ := digitVal_inv hb
        obtain ⟨hc9, hcc⟩ := digitVal_inv hc
        obtain ⟨hd9, hdc⟩ := digitVal_inv hdd
        obtain ⟨he9, hec⟩ := digitVal_inv he
        obtain ⟨hf9, hfc⟩ := digitVal_inv hf
        obtain ⟨hg9, hgc⟩ := digitVal_inv hg
        obtain ⟨hh9, hhc⟩ := digitVal_inv hhh
        simp only [Option.some.injEq, Prod.mk.injEq] at h
        obtain ⟨hy, hm, hd⟩ := h
        subst hy
        subst hm
        subst hd
        refine ⟨hval, by omega, ?_⟩
        rw [pad4Year, if_pos ⟨by positivity, by exact_mod_cast (by omega : ((a * 10 + b) * 10 + c) * 10 + dd < 10000)⟩]
        rw [Int.toNat_natCast]
        unfold pad2
        have e1 : digitChar ((((a * 10 + b) * 10 + c) * 10 + dd) / 1000) = c1 :=
          (digitChar_congr (by omega)).trans hac
        have e2 : digitChar ((((a * 10 + b) * 10 + c) * 10 + dd) / 100) = c2 :=
          (digitChar_congr (by omega)).trans hbc
        have e3 : digitChar ((((a * 10 + b) * 10 + c) * 10 + dd) / 10) = c3 :=
          (digitChar_congr (by omega)).trans hcc
        have e4 : digitChar (((a * 10 + b) * 10 + c) * 10 + dd) = c4 :=
          (digitChar_congr (by omega)).trans hdc
        have e5 : digitChar ((e * 10 + f) / 10) = c5 :=
          (digitChar_congr (by omega)).trans hec
        have e6 : digitChar (e * 10 + f) = c6 :=
          (digitChar_congr (by omega)).trans hfc
        have e7 : digitChar ((g * 10 + hh) / 10) = c7 :=
          (digitChar_congr (by omega)).trans hgc
        have e8 : digitChar (g * 10 + hh) = c8 :=
          (digitChar_congr (by omega)).trans hhc
        rw [e1, e2, e3, e4, e5, e6, e7, e8]
        rfl
    case _ => exact absurd h (by simp)
  case isFalse => exact absurd h (by simp)

theorem ParseDateToTimestampMs_elim {s : String} {ms : Int}
    (h : ParseDateToTimestampMs s = .ok ms) :
    ∃ y m d, parseYMD s.toList = some (y, m, d) ∧
      ms = (daysFromCivil y m d * 86400 - 28800) * 1000 := by
  unfold ParseDateToTimestampMs at h
  split at h
  · exact absurd h (by simp)
  split at h
  · exact absurd h (by simp)
  next y m d heq =>
    refine ⟨y, m, d, heq, ?_⟩
    simpa using h.symm

/-- C9 amended: for canonical date strings re-parsed to a millisecond
timestamp that is at least 10^12 and within the accepted range, the second
normalization returns the same date string. -/
theorem dateRoundTrip (t : Rat) (D : String) (ms : Int)
    (h1 : GetDateFieldAsString 28800 [("日期", .num t)] "日期" = .ok D)
    (h2 : ParseDateToTimestampMs D = .ok ms)
    (h3 : 1000000000000 ≤ ms) (h4 : ms ≤ 2145916800000) :
    GetDateFieldAsString 28800 [("日期", .num (ms : Rat))] "日期" = .ok D := by
  obtain ⟨y, m, d, hp, hms⟩ := ParseDateToTimestampMs_elim h2
  obtain ⟨hval, hy4, hcs⟩ := parseYMD_elim hp
  have hlow : (946684800 : Rat) ≤ (ms : Rat) := by
    have : ((946684800 : Int) : Rat) ≤ (ms : Rat) := by
      exact_mod_cast (by omega : (946684800 : Int) ≤ ms)
    simpa using this
  have hhigh : (ms : Rat) ≤ 2145916800000 := by
    have : (ms : Rat) ≤ ((2145916800000 : Int) : Rat) := by exact_mod_cast h4
    simpa using this
  have hth : (1000000000000 : Rat) ≤ (ms : Rat) := by
    have : ((1000000000000 : Int) : Rat) ≤ (ms : Rat) := by exact_mod_cast h3
    simpa using this
  have hfloor : ((ms : Rat) / 1000).floor = daysFromCivil y m d * 86400 - 28800 := by
    have hq : (ms : Rat) / 1000 = ((daysFromCivil y m d * 86400 - 28800 : Int) : Rat) := by
      rw [hms]
      push_cast
      ring
    rw [hq, show ∀ q : Rat, q.floor = ⌊q⌋ from fun _ => rfl, Int.floor_intCast]
  have hconv : convertTimestampToTime (ms : Rat) =
      some (daysFromCivil y m d * 86400 - 28800) := by
    unfold convertTimestampToTime
    rw [if_neg (by push_neg; constructor <;> [exact hlow; exact hhigh]), if_pos hth, hfloor]
  have hday : (daysFromCivil y m d * 86400 - 28800 + 28800).fdiv 86400 = daysFromCivil y m d := by
    rw [Int.sub_add_cancel]
    exact Int.mul_fdiv_cancel _ (by norm_num)
  have hfmt : formatEpochDate 28800 (daysFromCivil y m d * 86400 - 28800) = D := by
    unfold formatEpochDate
    rw [hday]
    unfold dateStringOfDay
    rw [civilFromDays_daysFromCivil y m d hval]
    have : String.mk (pad4Year (y : Int) ++ '-' :: pad2 m ++ '-' :: pad2 d) = String.mk D.toList := by
      rw [← hcs]
    simpa using this
  have hlk : GetDateFieldAsString 28800 [("日期", .num (ms : Rat))] "日期" =
      (match convertTimestampToTime (ms : Rat) with
        | none => Except.error ()
        | some sec => Except.ok (formatEpochDate 28800 sec)) := by
    unfold GetDateFieldAsString lookupField
    rw [if_pos rfl]
  rw [hlk]
  simp only [hconv, hfmt]




theorem dateRoundTrip_witness :
    GetDateFieldAsString 28800 [("日期", .num 1700000000)] "日期" = .ok "2023-11-15" ∧
    ParseDateToTimestampMs "2023-11-15" = .ok 1699977600000 ∧
    (1000000000000 : Int) ≤ 1699977600000 ∧ (1699977600000 : Int) ≤ 2145916800000 ∧
    GetDateFieldAsString 28800 [("日期", .num ((1699977600000 : Int) : Rat))] "日期" =
      .ok "2023-11-15" :=
  ⟨by decide, by decide, by decide, by decide,
    dateRoundTrip 1700000000 "2023-11-15" 1699977600000 (by decide) (by decide) (by decide)
      (by decide)⟩

theorem dateRoundTrip_refuted :
    GetDateFieldAsString 28800 [("日期", .num 946684800)] "日期" = .ok "2000-01-01" ∧
    ParseDateToTimestampMs "2000-01-01" = .ok 946656000000 ∧
    GetDateFieldAsString 28800 [("日期", .num 946656000000)] "日期" ≠ .ok "2000-01-01" :=
  ⟨by decide, by decide, by decide⟩

/-! ### Timestamp range and window filter -/

theorem GetDateFieldAsString_single (tz : Int) (k : String) (q : Rat) :
    GetDateFieldAsString tz [(k, .num q)] k =
      match convertTimestampToTime q with
      | none => Except.error ()
      | some sec => Except.ok (formatEpochDate tz sec) := by
  unfold GetDateFieldAsString lookupField
  rw [if_pos rfl]

/-- C4 amended: the numeric date normalization fails exactly when the raw
value lies outside `[946684800, 2145916800000]`, and succeeds at the
inclusive lower bound with the date `2000-01-01`. -/
theorem GetDateFieldAsString_range (ts : Rat) :
    ((GetDateFieldAsString 28800 [("日期", .num ts)] "日期" ≠ .error ()) ↔
      946684800 ≤ ts ∧ ts ≤ 2145916800000) ∧
    GetDateFieldAsString 28800 [("日期", .num (946684800 : Rat))] "日期" = .ok "2000-01-01" := by
  constructor
  · rw [GetDateFieldAsString_single]
    unfold convertTimestampToTime
    by_cases hg : ts < 946684800 ∨ ts > 2145916800000
    · rw [if_pos hg]
      simp only [ne_eq, not_true_eq_false, false_iff, not_and, not_le]
      intro hl
      rcases hg with hgl | hgr
      · exact absurd hl (not_le.mpr hgl)
      · exact hgr
    · rw [if_neg hg]
      push_neg at hg
      constructor
      · intro _
        exact ⟨hg.1, hg.2⟩
      · intro _
        by_cases hth : 1000000000000 ≤ ts
        · rw [if_pos hth]
          simp
        · rw [if_neg hth]
          simp
  · decide

theorem GetDateFieldAsString_range_refuted :
    (3000000000 : Rat) < 1000000000000 ∧ (2147483647 : Int) < 3000000000 ∧
    GetDateFieldAsString 28800 [("日期", .num 3000000000)] "日期" = .ok "2065-01-24" :=
  ⟨by decide, by decide, by decide⟩




/-- The record predicate realized by the body of `FilterRecordsByDate`: the
date field resolves to a non-empty `YYYY-MM-DD` string whose midnight-UTC
instant lies in `[startSec, endSec)`. -/
def keepRecord (tz : Int) (dateField : String) (startSec endSec : Int) (r : Record) : Bool :=
  match GetDateFieldAsString tz r.fields dateField with
  | .error _ => false
  | .ok s =>
      if s = "" then false
      else
        match parseYMD s.toList with
        | none => false
        | some (y, m, d) =>
            decide (startSec ≤ daysFromCivil y m d * 86400) &&
              decide (daysFromCivil y m d * 86400 < endSec)

/-- C5 amended: the window filter keeps exactly the records satisfying
`keepRecord` (records with unresolvable, empty or unparsable date fields are
dropped without failing), and the kept records are compared as instants
against the window endpoints, time-of-day included. -/
theorem FilterRecordsByDate_filter (tz : Int) (records : List Record)
    (dateField : String) (startSec endSec : Int) :
    FilterRecordsByDate tz records dateField startSec endSec =
      records.filter (keepRecord tz dateField startSec endSec) := by
  induction records with
  | nil => rfl
  | cons r rest ih =>
      rw [List.filter_cons]
      unfold FilterRecordsByDate
      rw [ih]
      cases hres : GetDateFieldAsString tz r.fields dateField with
      | error u => simp [keepRecord, hres]
      | ok s =>
          by_cases hs : s = ""
          · simp [keepRecord, hres, hs]
          · cases hp : parseYMD s.data with
            | none => simp [keepRecord, hres, hs, hp, String.toList]
            | some ymd =>
                obtain ⟨y, m, d⟩ := ymd
                by_cases hw : startSec ≤ daysFromCivil y m d * 86400 ∧
                    daysFromCivil y m d * 86400 < endSec
                · simp [keepRecord, hres, hs, hp, hw.1, hw.2, String.toList]
                · have hk : keepRecord tz dateField startSec endSec r = false := by
                    unfold keepRecord
                    simp only [hres]
                    rw [if_neg hs, show s.toList = s.data from rfl, hp]
                    rcases not_and_or.mp hw with h1 | h1 <;> simp [h1]
                  simp [hres, hs, hp, hk, hw, String.toList]

/-- Modelled from the spec's words (§4.4, the inclusion rule only):
calendar-date comparison with the time-of-day of the window endpoints
ignored, `date ∈ [window.start, window.end)` on calendar days. -/
def specCalendarKeep (tz : Int) (dateField : String) (startSec endSec : Int)
    (r : Record) : Bool :=
  match GetDateFieldAsString tz r.fields dateField with
  | .error _ => false
  | .ok s =>
      if s = "" then false
      else
        match parseYMD s.toList with
        | none => false
        | some (y, m, d) =>
            decide (startSec.fdiv 86400 ≤ daysFromCivil y m d) &&
              decide (daysFromCivil y m d < endSec.fdiv 86400)

/-- The record of 2024-01-01 used to separate the implementation from the
spec's calendar-comparison wording. -/
def recJan1 : Record := ⟨"t1", [("日期", .str "2024-01-01")]⟩

theorem FilterRecordsByDate_refuted :
    FilterRecordsByDate 28800 [recJan1] "日期" (19723 * 86400 + 36000) (19732 * 86400) = [] ∧
    specCalendarKeep 28800 "日期" (19723 * 86400 + 36000) (19732 * 86400) recJan1 = true :=
  ⟨by decide, by decide⟩

/-! ### Dedup selection, dry run, and batched writes -/

/-- Helper: under total key extraction, `selectNew` is the key-absence
filter. -/
theorem selectNew_eq_filter (dateField : String) (keys : List String) :
    ∀ rows : List Row, (∀ row ∈ rows, (dedupKeyOfRow dateField row).isSome = true) →
      selectNew dateField keys rows =
        some (rows.filter fun row =>
          !(keys.contains ((dedupKeyOfRow dateField row).getD ""))) := by
  intro rows h
  induction rows with
  | nil => rfl
  | cons row rest ih =>
      obtain ⟨k, hk⟩ := Option.isSome_iff_exists.mp (h row (by simp))
      have hrest := ih fun r hr => h r (by simp [hr])
      unfold selectNew
      rw [hk]
      simp only [Option.bind_eq_bind, Option.some_bind, hrest, List.filter_cons, hk,
        Option.getD_some]
      by_cases hc : keys.contains k
      · simp [hc]
      · simp [hc]

/-- C1: the dedup selection step keeps exactly the rows whose composite key
`date|name|project` is absent from the existing-key set, in input order; a
row with a matching key is excluded and a row with an absent key is kept. -/
theorem selectNew_correct (dateField : String) (keys : List String) (rows : List Row)
    (h : ∀ row ∈ rows, (dedupKeyOfRow dateField row).isSome = true) :
    selectNew dateField keys rows =
      some (rows.filter fun row =>
        !(keys.contains ((dedupKeyOfRow dateField row).getD ""))) ∧
    (∀ out, selectNew dateField keys rows = some out → out.Sublist rows) ∧
    (∀ out, selectNew dateField keys rows = some out →
      ∀ row ∈ rows, keys.contains ((dedupKeyOfRow dateField row).getD "") = true →
        row ∉ out) ∧
    (∀ out, selectNew dateField keys rows = some out →
      ∀ row ∈ rows, keys.contains ((dedupKeyOfRow dateField row).getD "") = false →
        row ∈ out) := by
  have hmain := selectNew_eq_filter dateField keys rows h
  refine ⟨hmain, ?_, ?_, ?_⟩
  · intro out hout
    rw [← Option.some.inj (hmain.symm.trans hout)]
    exact List.filter_sublist rows
  · intro out hout row hrow hkey
    rw [← Option.some.inj (hmain.symm.trans hout)]
    intro hmem
    have hb := (List.mem_filter.mp hmem).2
    simp only [Bool.not_eq_true'] at hb
    rw [hkey] at hb
    exact Bool.noConfusion hb
  · intro out hout row hrow hkey
    rw [← Option.some.inj (hmain.symm.trans hout)]
    exact List.mem_filter.mpr ⟨hrow, by simp only [Bool.not_eq_true', hkey]⟩




/-- Candidate row with the exact key `2024-01-01|Alice|ProjX`. -/
def rowProjX : Row :=
  [("日期", .str "2024-01-01"), ("姓名", .str "Alice"), ("项目名称", .str "ProjX")]

/-- Candidate row differing from `rowProjX` only in the project name. -/
def rowProjY : Row :=
  [("日期", .str "2024-01-01"), ("姓名", .str "Alice"), ("项目名称", .str "ProjY")]

theorem selectNew_correct_witness :
    (∀ row ∈ ([rowProjX, rowProjY] : List Row), (dedupKeyOfRow "日期" row).isSome = true) ∧
    selectNew "日期" ["2024-01-01|Alice|ProjX"] [rowProjX, rowProjY] = some [rowProjY] := by
  refine ⟨by decide, ?_⟩
  have h := (selectNew_correct "日期" ["2024-01-01|Alice|ProjX"] [rowProjX, rowProjY]
    (by decide)).1
  exact h.trans (by decide)

/-- C3: with dry-run enabled, `Load` issues zero batch-create calls, logs at
most 3 preview rows, and returns success with a written count of zero. -/
theorem Load_dryRun (dateField : String) (keys : List String) (batchSize : Nat)
    (oracle : Nat → Bool) (rows : List Row)
    (h : ∀ row ∈ rows, (dedupKeyOfRow dateField row).isSome = true) :
    Load dateField keys true batchSize oracle rows =
      some ⟨[], min 3 ((rows.filter fun row =>
        !(keys.contains ((dedupKeyOfRow dateField row).getD ""))).length), 0, false⟩ ∧
    min 3 ((rows.filter fun row =>
        !(keys.contains ((dedupKeyOfRow dateField row).getD ""))).length) ≤ 3 := by
  constructor
  · unfold Load
    rw [selectNew_eq_filter dateField keys rows h]
    simp
  · exact Nat.min_le_left _ _

theorem Load_dryRun_witness :
    (∀ row ∈ ([rowProjX, rowProjY] : List Row), (dedupKeyOfRow "日期" row).isSome = true) ∧
    Load "日期" [] true 2 (fun _ => true) [rowProjX, rowProjY] = some ⟨[], 2, 0, false⟩ := by
  refine ⟨by decide, ?_⟩
  have h := (Load_dryRun "日期" [] 2 (fun _ => true) [rowProjX, rowProjY] (by decide)).1
  exact h.trans (by decide)




theorem chunksAux_join {batchSize : Nat} (hbs : 1 ≤ batchSize) :
    ∀ (fuel : Nat) (l : List Row), l.length ≤ fuel →
      (chunksAux batchSize fuel l).flatten = l := by
  intro fuel
  induction fuel with
  | zero =>
      intro l hl
      have : l = [] := List.eq_nil_of_length_eq_zero (by omega)
      subst this
      rfl
  | succ n ih =>
      intro l hl
      cases l with
      | nil => rfl
      | cons a rest =>
          show (List.take batchSize (a :: rest) ::
            chunksAux batchSize n (List.drop batchSize (a :: rest))).flatten = a :: rest
          rw [List.flatten_cons, ih _ (by simp only [List.length_drop, List.length_cons] at hl ⊢; omega)]
          exact List.take_append_drop _ _

theorem chunksAux_mem {batchSize : Nat} (hbs : 1 ≤ batchSize) :
    ∀ (fuel : Nat) (l c : List Row), c ∈ chunksAux batchSize fuel l →
      c ≠ [] ∧ c.length ≤ batchSize := by
  intro fuel
  induction fuel with
  | zero =>
      intro l c hc
      cases l <;> exact absurd hc (by simp [chunksAux])
  | succ n ih =>
      intro l c hc
      cases l with
      | nil => exact absurd hc (by simp [chunksAux])
      | cons a rest =>
          have hc' : c ∈ List.take batchSize (a :: rest) ::
              chunksAux batchSize n (List.drop batchSize (a :: rest)) := hc
          rcases List.mem_cons.mp hc' with rfl | htail
          · constructor
            · obtain ⟨b', hb'⟩ := Nat.exists_eq_add_of_le hbs
              simp [hb']
            · simpa using List.length_take_le _ _
          · exact ih _ _ htail

theorem length_filterMap_all_some {f : Row → Option Row} :
    ∀ l : List Row, (∀ a ∈ l, (f a).isSome = true) →
      (l.filterMap f).length = l.length := by
  intro l h
  induction l with
  | nil => rfl
  | cons a rest ih =>
      obtain ⟨b, hb⟩ := Option.isSome_iff_exists.mp (h a (by simp))
      rw [List.filterMap_cons, hb]
      simp only [List.length_cons]
      rw [ih fun x hx => h x (by simp [hx])]

theorem runBatches_ok (oracle : Nat → Bool) :
    ∀ (bl : List (List Row)) (idx : Nat), (∀ c ∈ bl, c ≠ []) →
      (∀ j, j < bl.length → oracle (idx + j) = true) →
      runBatches oracle bl idx = ⟨bl, bl.flatten.length, false⟩ := by
  intro bl
  induction bl with
  | nil => intro idx _ _; rfl
  | cons b rest ih =>
      intro idx hne hok
      have hb : ¬b.isEmpty := by
        simp only [List.isEmpty_iff]
        exact hne b (by simp)
      have h0 : oracle idx = true := by simpa using hok 0 (by simp)
      unfold runBatches
      rw [if_neg hb, if_pos h0,
        ih (idx + 1) (fun c hc => hne c (by simp [hc]))
          (fun j hj => by
            have := hok (j + 1) (by simpa using Nat.succ_lt_succ hj)
            simpa [Nat.add_assoc, Nat.add_comm 1 j] using this)]
      simp [Nat.add_comm]

theorem runBatches_fail (oracle : Nat → Bool) :
    ∀ (bl : List (List Row)) (idx k : Nat), (∀ c ∈ bl, c ≠ []) →
      k < bl.length → oracle (idx + k) = false →
      (∀ j, j < k → oracle (idx + j) = true) →
      runBatches oracle bl idx =
        ⟨bl.take (k + 1), (bl.take k).flatten.length, true⟩ := by
  intro bl
  induction bl with
  | nil => intro idx k _ hk; exact absurd hk (by simp)
  | cons b rest ih =>
      intro idx k hne hk hfail hbefore
      have hb : ¬b.isEmpty := by
        simp only [List.isEmpty_iff]
        exact hne b (by simp)
      cases k with
      | zero =>
          have h0 : oracle idx = false := by simpa using hfail
          unfold runBatches
          rw [if_neg hb, if_neg (by simp [h0])]
          simp
      | succ k' =>
          have h0 : oracle idx = true := by simpa using hbefore 0 (by omega)
          have htail := ih (idx + 1) k' (fun c hc => hne c (by simp [hc]))
            (by simpa using Nat.lt_of_succ_lt_succ hk)
            (by simpa [Nat.add_assoc, Nat.add_comm 1 k'] using hfail)
            (fun j hj => by
              have := hbefore (j + 1) (by omega)
              simpa [Nat.add_assoc, Nat.add_comm 1 j] using this)
          unfold runBatches
          rw [if_neg hb, if_pos h0, htail]
          simp




/-- C2: with dry-run off, the write stage partitions the rows to write into
contiguous chunks of at most `batchSize` in order; while every call succeeds
it submits every prepared batch and reports all rows written; the first
failed call aborts immediately — the calls issued stop at the failed one and
the written count covers exactly the earlier, successful batches. -/
theorem writeStage_correct (dateField : String) (oracle : Nat → Bool)
    (rows : List Row) (batchSize : Nat)
    (hrows : rows ≠ []) (hbs : 1 ≤ batchSize)
    (hprep : ∀ row ∈ rows, (prepareRecordForWriting dateField row).isSome = true) :
    (chunks rows batchSize).flatten = rows ∧
    (∀ c ∈ chunks rows batchSize, c ≠ [] ∧ c.length ≤ batchSize) ∧
    ((∀ j, j < (chunks rows batchSize).length → oracle j = true) →
      writeStage dateField oracle rows batchSize =
        ⟨(chunks rows batchSize).map (·.filterMap (prepareRecordForWriting dateField)),
         rows.length, false⟩) ∧
    (∀ k, k < (chunks rows batchSize).length → oracle k = false →
      (∀ j, j < k → oracle j = true) →
      writeStage dateField oracle rows batchSize =
        ⟨((chunks rows batchSize).map
            (·.filterMap (prepareRecordForWriting dateField))).take (k + 1),
         (((chunks rows batchSize).map
            (·.filterMap (prepareRecordForWriting dateField))).take k).flatten.length,
         true⟩) := by
  have hjoin : (chunks rows batchSize).flatten = rows := chunksAux_join hbs _ _ (le_refl _)
  have hmem : ∀ c ∈ chunks rows batchSize, c ≠ [] ∧ c.length ≤ batchSize :=
    fun c hc => chunksAux_mem hbs _ _ _ hc
  have hmemrows : ∀ c ∈ chunks rows batchSize, ∀ r ∈ c, r ∈ rows := by
    intro c hc r hr
    rw [← hjoin]
    exact List.mem_flatten.mpr ⟨c, hc, hr⟩
  have hpreplen : ∀ c ∈ chunks rows batchSize,
      (c.filterMap (prepareRecordForWriting dateField)).length = c.length := by
    intro c hc
    exact length_filterMap_all_some c fun r hr => hprep r (hmemrows c hc r hr)
  have hpne : ∀ p ∈ (chunks rows batchSize).map
      (·.filterMap (prepareRecordForWriting dateField)), p ≠ [] := by
    intro p hp
    obtain ⟨c, hc, rfl⟩ := List.mem_map.mp hp
    have h1 := hpreplen c hc
    have h2 := (hmem c hc).1
    intro hcon
    rw [hcon] at h1
    simp only [List.length_nil] at h1
    exact h2 (List.eq_nil_of_length_eq_zero h1.symm)
  have hflatlen : ((chunks rows batchSize).map
      (·.filterMap (prepareRecordForWriting dateField))).flatten.length = rows.length := by
    conv_rhs => rw [← hjoin]
    generalize hbl : chunks rows batchSize = bl at hpreplen
    clear hjoin hmem hmemrows hpne hbl
    induction bl with
    | nil => rfl
    | cons c rest ih =>
        simp only [List.map_cons, List.flatten_cons, List.length_append]
        rw [hpreplen c (by simp), ih fun c' hc' => hpreplen c' (by simp [hc'])]
  have hwrite : writeStage dateField oracle rows batchSize =
      runBatches oracle ((chunks rows batchSize).map
        (·.filterMap (prepareRecordForWriting dateField))) 0 := by
    unfold writeStage
    rw [if_neg (by simpa using hrows)]
  refine ⟨hjoin, hmem, ?_, ?_⟩
  · intro hok
    rw [hwrite, runBatches_ok oracle _ 0 hpne
      (fun j hj => by simpa using hok j (by simpa using hj))]
    rw [hflatlen]
  · intro k hk hfail hbefore
    rw [hwrite, runBatches_fail oracle _ 0 k hpne (by simpa using hk)
      (by simpa using hfail) (fun j hj => by simpa using hbefore j hj)]




/-- Five prepared-ready rows used to exercise the batching example. -/
def exRows5 : List Row :=
  [[("日期", .str "2024-01-01"), ("工时", .num 1)],
   [("日期", .str "2024-01-01"), ("工时", .num 2)],
   [("日期", .str "2024-01-01"), ("工时", .num 3)],
   [("日期", .str "2024-01-01"), ("工时", .num 4)],
   [("日期", .str "2024-01-01"), ("工时", .num 5)]]

theorem writeStage_correct_witness :
    (exRows5 ≠ [] ∧ (1 : Nat) ≤ 2 ∧
      ∀ row ∈ exRows5, (prepareRecordForWriting "日期" row).isSome = true) ∧
    (chunks exRows5 2).map List.length = [2, 2, 1] ∧
    (writeStage "日期" (fun i => !(i == 1)) exRows5 2).calls.map List.length = [2, 2] ∧
    (writeStage "日期" (fun i => !(i == 1)) exRows5 2).written = 2 ∧
    (writeStage "日期" (fun i => !(i == 1)) exRows5 2).failed = true := by
  have h := (writeStage_correct "日期" (fun i => !(i == 1)) exRows5 2 (by decide) (by decide)
    (by decide)).2.2.2 1 (by decide) (by decide) (by decide)
  refine ⟨⟨by decide, by decide, by decide⟩, by decide, ?_, ?_, ?_⟩
  · rw [h]
    decide
  · rw [h]
    decide
  · rw [h]

/-! ### Retry loop, paged fetch, and transform typing -/

theorem sleepsShift (b k : Nat) :
    (List.range (k + 1)).map (fun t => b * 2 ^ t) =
      b :: (List.range k).map (fun t => b * 2 * 2 ^ t) := by
  rw [List.range_succ_eq_map, List.map_cons, List.map_map]
  simp only [pow_zero, Nat.mul_one]
  congr 1
  refine List.map_congr_left fun t ht => ?_
  simp only [Function.comp_apply, pow_succ]
  ring

theorem closedShift (i k : Nat) (p : Nat → Bool) :
    ((List.range (k + 1)).map (i + ·)).filter p =
      (if p i then [i] else []) ++ ((List.range k).map (i + 1 + ·)).filter p := by
  rw [List.range_succ_eq_map, List.map_cons, List.map_map]
  have hc : ((i + ·) ∘ Nat.succ) = fun t => i + 1 + t := by
    funext t
    simp only [Function.comp_apply]
    omega
  rw [hc, List.filter_cons]
  simp only [Nat.add_zero]
  by_cases hp : p i
  · simp [hp]
  · simp [hp]

theorem sendWithRetryAux_success (outcome : Nat → Attempt) :
    ∀ (rem k i b : Nat), k < rem → outcome (i + k) = .resp 200 →
      (∀ j, j < k → outcome (i + j) ≠ .resp 200) →
      sendWithRetryAux outcome rem i b =
        ⟨k + 1, (List.range k).map (fun t => b * 2 ^ t),
         ((List.range k).map (i + ·)).filter (fun j => failedResp (outcome j)),
         .ok (i + k)⟩ := by
  intro rem
  induction rem with
  | zero => intro k i b hk; omega
  | succ n ih =>
      intro k i b hk hsucc hbefore
      cases k with
      | zero =>
          simp only [Nat.add_zero] at hsucc
          unfold sendWithRetryAux
          rw [if_pos hsucc]
          simp
      | succ k' =>
          have h0 : outcome i ≠ .resp 200 := by
            have h00 := hbefore 0 (by omega)
            simpa using h00
          have htail := ih k' (i + 1) (b * 2) (by omega)
            (by rw [show i + 1 + k' = i + (k' + 1) by omega]; exact hsucc)
            (fun j hj => by
              rw [show i + 1 + j = i + (j + 1) by omega]
              exact hbefore (j + 1) (by omega))
          unfold sendWithRetryAux
          rw [if_neg h0, if_neg (by omega), htail]
          rw [sleepsShift, closedShift]
          rw [show i + 1 + k' = i + (k' + 1) by omega]

theorem sendWithRetryAux_fail (outcome : Nat → Attempt) :
    ∀ (rem i b : Nat), 1 ≤ rem → (∀ k, k < rem → outcome (i + k) ≠ .resp 200) →
      sendWithRetryAux outcome rem i b =
        ⟨rem, (List.range (rem - 1)).map (fun t => b * 2 ^ t),
         ((List.range rem).map (i + ·)).filter (fun j => failedResp (outcome j)),
         .fail (lastErr (outcome (i + (rem - 1))))⟩ := by
  intro rem
  induction rem with
  | zero => intro i b h1; omega
  | succ n ih =>
      intro i b h1 hall
      have h0 : outcome i ≠ .resp 200 := by
        have h00 := hall 0 (by omega)
        simpa using h00
      cases n with
      | zero =>
          unfold sendWithRetryAux
          rw [if_neg h0, if_pos rfl]
          have hr1 : List.range 1 = [0] := rfl
          simp only [hr1, List.map_cons, List.map_nil, Nat.add_zero,
            List.filter_cons, List.filter_nil, Nat.sub_self, List.range_zero]
      | succ n' =>
          have htail := ih (i + 1) (b * 2) (by omega)
            (fun k hk => by
              rw [show i + 1 + k = i + (k + 1) by omega]
              exact hall (k + 1) (by omega))
          unfold sendWithRetryAux
          rw [if_neg h0, if_neg (by omega), htail]
          simp only [Nat.add_sub_cancel]
          rw [sleepsShift, closedShift, closedShift, closedShift]
          rw [show i + 1 + n' = i + (n' + 1) by omega]




/-- C7: `sendWithRetry` returns the first OK response immediately; every
failed attempt with a response gets its body closed; between attempts it
sleeps a backoff starting at one unit and doubling; after `maxRetries`
failures it returns the last transport error or last status code. -/
theorem sendWithRetry_correct (outcome : Nat → Attempt) (m : Nat) (h : 1 ≤ m) :
    (∀ k, k < m → outcome k = .resp 200 → (∀ j, j < k → outcome j ≠ .resp 200) →
      sendWithRetry outcome m =
        ⟨k + 1, (List.range k).map (2 ^ ·),
         (List.range k).filter (fun j => failedResp (outcome j)), .ok k⟩) ∧
    ((∀ k, k < m → outcome k ≠ .resp 200) →
      sendWithRetry outcome m =
        ⟨m, (List.range (m - 1)).map (2 ^ ·),
         (List.range m).filter (fun j => failedResp (outcome j)),
         .fail (lastErr (outcome (m - 1)))⟩) := by
  have hmap0 : ∀ n : Nat, (List.range n).map (0 + ·) = List.range n := by
    intro n
    have : (0 + ·) = fun t : Nat => t := by
      funext t
      omega
    rw [this, List.map_id']
  constructor
  · intro k hk hsucc hbefore
    have haux := sendWithRetryAux_success outcome m k 0 1 hk (by simpa using hsucc)
      (fun j hj => by simpa using hbefore j hj)
    unfold sendWithRetry
    rw [haux, hmap0]
    simp only [Nat.zero_add]
    congr 1
    exact List.map_congr_left fun t _ => by ring
  · intro hall
    have haux := sendWithRetryAux_fail outcome m 0 1 h
      (fun k hk => by simpa using hall k hk)
    unfold sendWithRetry
    rw [haux, hmap0]
    simp only [Nat.zero_add]
    congr 1
    exact List.map_congr_left fun t _ => by ring

theorem sendWithRetry_correct_witness :
    (1 : Nat) ≤ 3 ∧
    sendWithRetry (fun i => if i = 2 then .resp 200 else .resp 500) 3 =
      ⟨3, [1, 2], [0, 1], .ok 2⟩ ∧
    sendWithRetry (fun _ => Attempt.err) 3 = ⟨3, [1, 2], [], .fail .transport⟩ := by
  refine ⟨by decide, ?_, ?_⟩
  · have h := (sendWithRetry_correct (fun i => if i = 2 then .resp 200 else .resp 500) 3
      (by decide)).1 2 (by decide) (by decide) (by decide)
    exact h.trans (by decide)
  · have h := (sendWithRetry_correct (fun _ => Attempt.err) 3 (by decide)).2 (by decide)
    exact h.trans (by decide)




/-- A successful page answer `(code 0, items, token)`. -/
def goodPage (p : List Record × String) : PageResp := .page 0 p.1 p.2

/-- Whether a page answer aborts `ListRecords`: transport failure,
undecodable body, or non-zero response code. -/
def badResp : PageResp → Bool
  | .fail => true
  | .undecodable => true
  | .page c _ _ => c != 0

theorem ListRecords_page_cons (c : Int) (items : List Record) (tok : String)
    (rest : List PageResp) :
    ListRecords (.page c items tok :: rest) =
      if c ≠ 0 then .error ()
      else if tok = "" then .ok (items.map preprocessRecord)
      else
        match ListRecords rest with
        | .error e => .error e
        | .ok more => .ok (items.map preprocessRecord ++ more) := rfl

/-- C8 amended: when the server answers with code-0 pages carrying non-empty
continuation tokens and a final page with an empty token, `ListRecords`
returns the concatenation of all pages' items in server order, each item's
`检查` field normalized to its extracted text; a failing, undecodable or
non-zero-code answer anywhere before the final page aborts with an error. -/
theorem ListRecords_correct :
    (∀ (body : List (List Record × String)) (last : List Record × String),
      (∀ p ∈ body, p.2 ≠ "") → last.2 = "" →
      ListRecords ((body ++ [last]).map goodPage) =
        .ok (((body ++ [last]).map (fun p => p.1.map preprocessRecord)).flatten)) ∧
    (∀ (good : List (List Record × String)) (bad : PageResp) (rest : List PageResp),
      (∀ p ∈ good, p.2 ≠ "") → badResp bad = true →
      ListRecords (good.map goodPage ++ bad :: rest) = .error ()) := by
  constructor
  · intro body last
    induction body with
    | nil =>
        intro _ hlast
        simp only [List.nil_append, List.map_cons, List.map_nil, List.flatten_cons,
          List.flatten_nil, List.append_nil, goodPage]
        rw [ListRecords_page_cons, if_neg (by simp), if_pos hlast]
    | cons p rest ih =>
        intro hbody hlast
        have hp : p.2 ≠ "" := hbody p (by simp)
        have htail := ih (fun q hq => hbody q (by simp [hq])) hlast
        simp only [List.cons_append, List.map_cons, List.flatten_cons, goodPage]
        rw [ListRecords_page_cons, if_neg (by simp), if_neg hp, htail]
  · intro good bad rest
    induction good with
    | nil =>
        intro _ hbad
        cases bad with
        | fail => rfl
        | undecodable => rfl
        | page c items tok =>
            simp only [List.map_nil, List.nil_append]
            have hc : c ≠ 0 := by
              simpa [badResp] using hbad
            rw [ListRecords_page_cons, if_pos hc]
    | cons p restg ih =>
        intro hgood hbad
        have hp : p.2 ≠ "" := hgood p (by simp)
        have htail := ih (fun q hq => hgood q (by simp [hq])) hbad
        simp only [List.cons_append, List.map_cons, goodPage]
        rw [ListRecords_page_cons, if_neg (by simp), if_neg hp, htail]

/-- A record whose `检查` field is numeric, altered by preprocessing. -/
def recNum7 : Record := ⟨"n1", [("检查", .num 7)]⟩

theorem ListRecords_refuted :
    ListRecords [.page 0 [recNum7] ""] = .ok [⟨"n1", [("检查", .str "7")]⟩] ∧
    ListRecords [.page 0 [recNum7] ""] ≠ .ok [recNum7] :=
  ⟨by decide, by decide⟩

/-- A record with the given id and no fields. -/
def recS (id : String) : Record := ⟨id, []⟩

theorem ListRecords_correct_witness :
    ListRecords [.page 0 [recS "a", recS "b"] "t1", .page 0 [recS "c", recS "d"] "t2",
      .page 0 [recS "e", recS "f"] ""] =
      .ok [recS "a", recS "b", recS "c", recS "d", recS "e", recS "f"] := by
  have h := (ListRecords_correct).1
    [([recS "a", recS "b"], "t1"), ([recS "c", recS "d"], "t2")]
    ([recS "e", recS "f"], "") (by decide) rfl
  exact h.trans (by decide)




theorem lookupField_rowInsert_self (r : Row) (k : String) (v : FieldValue) :
    lookupField (rowInsert r k v) k = some v := by
  induction r with
  | nil => simp [rowInsert, lookupField]
  | cons kv rest ih =>
      obtain ⟨k', w⟩ := kv
      by_cases hk : k' = k
      · simp [rowInsert, hk, lookupField]
      · simp [rowInsert, hk, lookupField, ih]

theorem lookupField_rowInsert_ne (r : Row) (k k' : String) (v : FieldValue)
    (h : k' ≠ k) : lookupField (rowInsert r k v) k' = lookupField r k' := by
  induction r with
  | nil => simp [rowInsert, lookupField, Ne.symm h]
  | cons kv rest ih =>
      obtain ⟨k'', w⟩ := kv
      by_cases hk : k'' = k
      · subst hk
        simp [rowInsert, lookupField, Ne.symm h]
      · simp [rowInsert, hk, lookupField, ih]

theorem lookupField_rowInsert_isSome (r : Row) (k k' : String) (v : FieldValue)
    (h : (lookupField r k').isSome = true) :
    (lookupField (rowInsert r k v) k').isSome = true := by
  by_cases hk : k' = k
  · subst hk
    rw [lookupField_rowInsert_self]
    rfl
  · rw [lookupField_rowInsert_ne r k k' v hk]
    exact h

/-- Every value of the row is a string. -/
def rowAllStr (r : Row) : Prop := ∀ kv ∈ r, ∃ s, kv.2 = FieldValue.str s

theorem rowAllStr_insert {r : Row} (h : rowAllStr r) (k : String) (s : String) :
    rowAllStr (rowInsert r k (.str s)) := by
  induction r with
  | nil =>
      intro kv hkv
      simp only [rowInsert, List.mem_singleton] at hkv
      subst hkv
      exact ⟨s, rfl⟩
  | cons kv' rest ih =>
      intro kv hkv
      obtain ⟨k', w⟩ := kv'
      by_cases hk : k' = k
      · simp only [rowInsert, hk, if_pos rfl] at hkv
        rcases List.mem_cons.mp hkv with rfl | htail
        · exact ⟨s, rfl⟩
        · exact h kv (by simp [htail])
      · simp only [rowInsert, if_neg hk] at hkv
        rcases List.mem_cons.mp hkv with rfl | htail
        · exact h (k', w) (by simp)
        · exact ih (fun kv2 hkv2 => h kv2 (by simp [hkv2])) kv htail

theorem lookupField_mem {r : Row} {k : String} {v : FieldValue}
    (h : lookupField r k = some v) : (k, v) ∈ r := by
  induction r with
  | nil => exact absurd h (by simp [lookupField])
  | cons kv rest ih =>
      obtain ⟨k', w⟩ := kv
      by_cases hk : k' = k
      · subst hk
        simp only [lookupField, eq_self_iff_true, if_true] at h
        obtain rfl := Option.some.inj h
        simp
      · simp only [lookupField] at h
        rw [if_neg hk] at h
        exact List.mem_cons.mpr (Or.inr (ih h))

theorem rowAllStr_lookup {r : Row} (hall : rowAllStr r) {k : String} {v : FieldValue}
    (h : lookupField r k = some v) : ∃ s, v = FieldValue.str s :=
  hall (k, v) (lookupField_mem h)

theorem baseRow_allStr (dateField : String) (fields : Row) (dateStr : String) :
    rowAllStr (baseRow dateField fields dateStr) := by
  unfold baseRow
  refine rowAllStr_insert (rowAllStr_insert (rowAllStr_insert (rowAllStr_insert
    (rowAllStr_insert (rowAllStr_insert ?_ _ _) _ _) _ _) _ _) _ _) _ _
  intro kv hkv
  exact absurd hkv (by simp)

theorem baseRow_dateField_isSome (dateField : String) (fields : Row) (dateStr : String) :
    (lookupField (baseRow dateField fields dateStr) dateField).isSome = true := by
  unfold baseRow
  refine lookupField_rowInsert_isSome _ _ _ _ (lookupField_rowInsert_isSome _ _ _ _
    (lookupField_rowInsert_isSome _ _ _ _ (lookupField_rowInsert_isSome _ _ _ _ ?_)))
  rw [lookupField_rowInsert_self]
  rfl

theorem baseRow_name (dateField : String) (fields : Row) (dateStr : String) :
    (lookupField (baseRow dateField fields dateStr) "姓名").isSome = true := by
  unfold baseRow
  refine lookupField_rowInsert_isSome _ _ _ _ (lookupField_rowInsert_isSome _ _ _ _ ?_)
  rw [lookupField_rowInsert_self]
  rfl

theorem mem_Transform {tz : Int} {dateField : String} {records : List Record} {row : Row}
    (h : row ∈ Transform tz dateField records) :
    ∃ r ∈ records, ∃ ds, GetDateFieldAsString tz r.fields dateField = .ok ds ∧ ds ≠ "" ∧
      ∃ slot ∈ projectSlots r.fields,
        slot.1 ≠ "" ∧ slot.2 ≠ "" ∧ slot.1 ≠ "None" ∧ slot.2 ≠ "None" ∧
        ∃ q, parseGoFloat slot.2 = some q ∧ q ≠ 0 ∧
          row = rowInsert (rowInsert (baseRow dateField r.fields ds)
            "项目名称" (.str slot.1)) "工时" (.num q) := by
  unfold Transform at h
  obtain ⟨l, hl, hrow⟩ := List.mem_flatten.mp h
  obtain ⟨r, hr, rfl⟩ := List.mem_map.mp hl
  unfold transformRecord at hrow
  split at hrow
  · exact absurd hrow (by simp)
  cases hres : GetDateFieldAsString tz r.fields dateField with
  | error u => rw [hres] at hrow; exact absurd hrow (by simp)
  | ok ds =>
      rw [hres] at hrow
      simp only at hrow
      split at hrow
      · exact absurd hrow (by simp)
      next hds =>
        obtain ⟨slot, hslot, hsr⟩ := List.mem_filterMap.mp hrow
        unfold slotRow at hsr
        split at hsr
        · exact absurd hsr (by simp)
        next hguard =>
          push_neg at hguard
          obtain ⟨hg1, hg2, hg3, hg4⟩ := hguard
          cases hpf : parseGoFloat slot.2 with
          | none => rw [hpf] at hsr; exact absurd hsr (by simp)
          | some q =>
              rw [hpf] at hsr
              simp only at hsr
              split at hsr
              · exact absurd hsr (by simp)
              next hq =>
                refine ⟨r, hr, ds, hres, hds, slot, hslot, hg1, hg2, hg3, hg4, q, hpf, hq, ?_⟩
                exact (Option.some.inj hsr).symm




/-- Source record with project slots `("Alpha","3"), ("",""), ("Beta","0")`. -/
def exSlotsRec : Record :=
  ⟨"r1", [("日期", .str "2024-01-01"), ("姓名", .str "Alice"),
    ("项目名称-1", .str "Alpha"), ("项目工时-1", .str "3"),
    ("项目名称-2", .str ""), ("项目工时-2", .str ""),
    ("项目名称-3", .str "Beta"), ("项目工时-3", .str "0")]⟩

/-- The single row `Transform` produces for `exSlotsRec`. -/
def exSlotsRowAlpha : Row :=
  [("工作状态", .str ""), ("日期", .str "2024-01-01"), ("部门", .str ""),
   ("姓名", .str "Alice"), ("工作日志", .str ""), ("问题与沟通", .str ""),
   ("项目名称", .str "Alpha"), ("工时", .num 3)]

/-- C6 amended: every row `Transform` produces carries a non-zero `工时`
number obtained by parsing a non-empty, non-`"None"` hour text, and a
non-empty, non-`"None"` project name; the three-slot example produces
exactly one row, for Alpha with 3 hours. -/
theorem Transform_rowInvariant (tz : Int) (dateField : String) (records : List Record) :
    (∀ row ∈ Transform tz dateField records,
      ∃ q name hour,
        lookupField row "工时" = some (.num q) ∧ q ≠ 0 ∧
        lookupField row "项目名称" = some (.str name) ∧ name ≠ "" ∧ name ≠ "None" ∧
        hour ≠ "" ∧ hour ≠ "None" ∧ parseGoFloat hour = some q) ∧
    Transform 28800 "日期" [exSlotsRec] = [exSlotsRowAlpha] := by
  constructor
  · intro row hrow
    obtain ⟨r, hr, ds, hres, hds, slot, hslot, hg1, hg2, hg3, hg4, q, hpf, hq, rfl⟩ :=
      mem_Transform hrow
    refine ⟨q, slot.1, slot.2, ?_, hq, ?_, hg1, hg3, hg2, hg4, hpf⟩
    · exact lookupField_rowInsert_self _ _ _
    · rw [lookupField_rowInsert_ne _ _ _ _ (by decide)]
      exact lookupField_rowInsert_self _ _ _
  · decide

theorem Transform_rowInvariant_witness :
    exSlotsRowAlpha ∈ Transform 28800 "日期" [exSlotsRec] ∧
    (∃ q name hour,
      lookupField exSlotsRowAlpha "工时" = some (.num q) ∧ q ≠ 0 ∧
      lookupField exSlotsRowAlpha "项目名称" = some (.str name) ∧ name ≠ "" ∧
      name ≠ "None" ∧ hour ≠ "" ∧ hour ≠ "None" ∧ parseGoFloat hour = some q) :=
  ⟨by decide,
    (Transform_rowInvariant 28800 "日期" [exSlotsRec]).1 exSlotsRowAlpha (by decide)⟩

/-- Record whose first slot holds the negative hour text `"-2"`. -/
def negHourRec : Record :=
  ⟨"r3", [("日期", .str "2024-01-01"), ("姓名", .str "Carol"),
    ("项目名称-1", .str "Alpha"), ("项目工时-1", .str "-2")]⟩

/-- The row `Transform` produces for `negHourRec`: its hours are negative. -/
def negHourRow : Row :=
  [("工作状态", .str ""), ("日期", .str "2024-01-01"), ("部门", .str ""),
   ("姓名", .str "Carol"), ("工作日志", .str ""), ("问题与沟通", .str ""),
   ("项目名称", .str "Alpha"), ("工时", .num (-2))]

theorem Transform_rowInvariant_refuted :
    Transform 28800 "日期" [negHourRec] = [negHourRow] ∧
    lookupField negHourRow "工时" = some (.num (-2)) ∧ ¬((0 : Rat) < -2) :=
  ⟨by decide, by decide, by decide⟩

/-- C10 amended: provided the configured date field is not `工时`, every row
`Transform` produces binds the date field, `姓名` and `项目名称` to strings
and `工时` to a number, so the type assertions `Load` performs when building
the dedup key cannot panic. -/
theorem Transform_typing (tz : Int) (dateField : String) (records : List Record)
    (hdf : dateField ≠ "工时") :
    ∀ row ∈ Transform tz dateField records,
      (∃ s, lookupField row dateField = some (.str s)) ∧
      (∃ s, lookupField row "姓名" = some (.str s)) ∧
      (∃ s, lookupField row "项目名称" = some (.str s)) ∧
      (∃ q, lookupField row "工时" = some (.num q)) ∧
      (dedupKeyOfRow dateField row).isSome = true := by
  intro row hrow
  obtain ⟨r, hr, ds, hres, hds, slot, hslot, hg1, hg2, hg3, hg4, q, hpf, hq, rfl⟩ :=
    mem_Transform hrow
  have hdate : ∃ s, lookupField (rowInsert (rowInsert (baseRow dateField r.fields ds)
      "项目名称" (.str slot.1)) "工时" (.num q)) dateField = some (.str s) := by
    rw [lookupField_rowInsert_ne _ _ _ _ hdf]
    by_cases hpn : dateField = "项目名称"
    · subst hpn
      rw [lookupField_rowInsert_self]
      exact ⟨slot.1, rfl⟩
    · rw [lookupField_rowInsert_ne _ _ _ _ hpn]
      obtain ⟨v, hv⟩ := Option.isSome_iff_exists.mp
        (baseRow_dateField_isSome dateField r.fields ds)
      obtain ⟨s, rfl⟩ := rowAllStr_lookup (baseRow_allStr dateField r.fields ds) hv
      exact ⟨s, hv⟩
  have hname : ∃ s, lookupField (rowInsert (rowInsert (baseRow dateField r.fields ds)
      "项目名称" (.str slot.1)) "工时" (.num q)) "姓名" = some (.str s) := by
    rw [lookupField_rowInsert_ne _ _ _ _ (by decide),
      lookupField_rowInsert_ne _ _ _ _ (by decide)]
    obtain ⟨v, hv⟩ := Option.isSome_iff_exists.mp (baseRow_name dateField r.fields ds)
    obtain ⟨s, rfl⟩ := rowAllStr_lookup (baseRow_allStr dateField r.fields ds) hv
    exact ⟨s, hv⟩
  have hproj : ∃ s, lookupField (rowInsert (rowInsert (baseRow dateField r.fields ds)
      "项目名称" (.str slot.1)) "工时" (.num q)) "项目名称" = some (.str s) := by
    rw [lookupField_rowInsert_ne _ _ _ _ (by decide), lookupField_rowInsert_self]
    exact ⟨slot.1, rfl⟩
  have hhour : ∃ q', lookupField (rowInsert (rowInsert (baseRow dateField r.fields ds)
      "项目名称" (.str slot.1)) "工时" (.num q)) "工时" = some (.num q') :=
    ⟨q, lookupField_rowInsert_self _ _ _⟩
  refine ⟨hdate, hname, hproj, hhour, ?_⟩
  obtain ⟨s1, h1⟩ := hdate
  obtain ⟨s2, h2⟩ := hname
  obtain ⟨s3, h3⟩ := hproj
  unfold dedupKeyOfRow
  rw [h1, h2, h3]
  rfl

theorem Transform_typing_witness :
    ("日期" : String) ≠ "工时" ∧ exSlotsRowAlpha ∈ Transform 28800 "日期" [exSlotsRec] ∧
    ((∃ s, lookupField exSlotsRowAlpha "日期" = some (.str s)) ∧
     (∃ s, lookupField exSlotsRowAlpha "姓名" = some (.str s)) ∧
     (∃ s, lookupField exSlotsRowAlpha "项目名称" = some (.str s)) ∧
     (∃ q, lookupField exSlotsRowAlpha "工时" = some (.num q)) ∧
     (dedupKeyOfRow "日期" exSlotsRowAlpha).isSome = true) :=
  ⟨by decide, by decide,
    Transform_typing 28800 "日期" [exSlotsRec] (by decide) exSlotsRowAlpha (by decide)⟩

/-- Record exercised with the date field configured as `工时`. -/
def hourFieldRec : Record :=
  ⟨"r4", [("工时", .str "2024-01-01"), ("姓名", .str "张三"),
    ("项目名称-1", .str "Alpha"), ("项目工时-1", .str "3")]⟩

theorem Transform_typing_refuted :
    (Transform 28800 "工时" [hourFieldRec]).length = 1 ∧
    (Transform 28800 "工时" [hourFieldRec]).all
      (fun row => (dedupKeyOfRow "工时" row).isNone) = true :=
  ⟨by decide, by decide⟩

end FeishuEtl
